import Mathlib

/-!
Verification development for a single-file image-scraper script
(`src/main.py`).  The script has four pieces with observable behaviour:

* `clean_filename` — sanitizes a title into a filename via
  `re.sub(r'[^\w\s.-]', '', name.replace(' ', '_').lower())[:50]`;
* `download_image` — a bounded retry loop around a streaming HTTP GET,
  writing the body to disk in chunks on a 200 response;
* the scroll-until-stable loop in `main` — scroll, pause, re-read the
  page height, stop when two consecutive reads agree;
* the download loop in `main` — walks the parsed `img` tags, skips tags
  whose `src` is missing or lacks the substring `http`, fetches the rest
  until the requested maximum is reached.

Strings are modelled as lists of Unicode codepoints (`List Nat`); the
character classes of Python's `re` module (`\w`, `\s`) are modelled on
their ASCII fragment.  External effects (the network, the filesystem)
are modelled by explicit outcome data: each fetch attempt's outcome is a
value of `AttemptOutcome`, and the file at the destination path is an
`Option (List Nat)` (`none` = no file, `some bytes` = file with those
bytes).
-/

/-! ### Filename sanitization (`clean_filename`, src/main.py lines 45-47) -/

/-- ASCII fragment of Python's regex class `\w`: letters, digits, underscore
(codepoint 95). -/
def isWordCharN (c : Nat) : Bool :=
  (48 ≤ c && c ≤ 57) || (65 ≤ c && c ≤ 90) || (97 ≤ c && c ≤ 122) || c == 95

/-- ASCII fragment of Python's regex class `\s`: space (32), tab (9),
newline (10), vertical tab (11), form feed (12), carriage return (13). -/
def isSpaceCharN (c : Nat) : Bool :=
  c == 32 || c == 9 || c == 10 || c == 11 || c == 12 || c == 13

/-- A codepoint survives `re.sub(r'[^\w\s.-]', '', _)`: it is kept exactly
when it is a word character, a whitespace character, a dot (46) or a
hyphen (45). -/
def keepCharN (c : Nat) : Bool :=
  isWordCharN c || isSpaceCharN c || c == 46 || c == 45

/-- `name.replace(' ', '_')` acting on one codepoint: space (32) becomes
underscore (95). -/
def replSpaceN (c : Nat) : Nat :=
  if c = 32 then 95 else c

/-- `.lower()` acting on one codepoint (ASCII fragment): `A`-`Z`
(65-90) shift by 32, everything else is unchanged. -/
def toLowerN (c : Nat) : Nat :=
  if 65 ≤ c ∧ c ≤ 90 then c + 32 else c

/-- `clean_filename` from src/main.py line 47:
`re.sub(r'[^\w\s.-]', '', name.replace(' ', '_').lower())[:50]` —
replace spaces by underscores, lowercase, drop every codepoint outside
`[\w\s.-]`, and truncate to the first 50 codepoints. -/
def clean_filename (name : List Nat) : List Nat :=
  (((name.map replSpaceN).map toLowerN).filter keepCharN).take 50

/-- `f"{title}.jpg"` suffix: codepoints of `.jpg`. -/
def jpgCodes : List Nat := [46, 106, 112, 103]

/-- The filename computed at src/main.py line 128:
`clean_filename(f"{title}.jpg")`. -/
def filenameFor (title : List Nat) : List Nat :=
  clean_filename (title ++ jpgCodes)

/-- Codepoints of the title `Red Car!! 2024` (spec scenario). -/
def redCarTitle : List Nat :=
  [82, 101, 100, 32, 67, 97, 114, 33, 33, 32, 50, 48, 50, 52]

/-- Codepoints of `red_car_2024.jpg`, the expected sanitized filename. -/
def redCarExpected : List Nat :=
  [114, 101, 100, 95, 99, 97, 114, 95, 50, 48, 50, 52, 46, 106, 112, 103]

/-- The character set the spec claims for `clean_filename` output: word
characters (underscore included), dots and hyphens — written from the
spec's words, to be compared with what the code keeps. -/
def specAllowedChar (c : Nat) : Bool :=
  isWordCharN c || c == 95 || c == 46 || c == 45

/-- Codepoints of `a<TAB>b`: a name containing a tab character (9). -/
def tabName : List Nat := [97, 9, 98]

/-- Codepoints of `A b` (uppercase letter, space, lowercase letter). -/
def upperName : List Nat := [65, 32, 98]

/-! ### The fetch routine (`download_image`, src/main.py lines 49-66)

`download_image` runs `for attempt in range(RETRY_ATTEMPTS)`; each
attempt issues `session.get(url, stream=True, timeout=10)` inside a
`try`.  On a 200 response it opens the destination file in `wb` mode
(creating/truncating it) and writes the body chunk by chunk, returning
`True` when the stream completes; any exception is caught and the loop
moves to the next attempt after a fixed sleep; a non-200 status is
logged and the loop likewise moves on.  After the loop, `False`.

The outside world's behaviour on one attempt is a value of
`AttemptOutcome`; the destination file is `Option (List Nat)`. -/

/-- How the body stream of a 200 response behaves: either every chunk is
delivered (`complete`), or an exception interrupts the stream after the
listed chunks were already written (`interrupted`). -/
inductive StreamResult where
  | complete (chunks : List (List Nat))
  | interrupted (written : List (List Nat))
deriving DecidableEq

/-- The outcome of one fetch attempt: `session.get` raises
(`transportError`), or a response arrives with the given status code and
— consulted only when the status is 200 — the given stream behaviour. -/
inductive AttemptOutcome where
  | transportError
  | response (status : Nat) (stream : StreamResult)
deriving DecidableEq

/-- Concatenation of the written chunks: the file contents produced by
the successive `f.write(chunk)` calls. -/
def concatAll : List (List Nat) → List Nat
  | [] => []
  | c :: cs => c ++ concatAll cs

/-- An attempt causes `download_image` to return `True` exactly when the
response status is 200 and the body stream completes. -/
def attemptSucceeds (o : AttemptOutcome) : Bool :=
  match o with
  | .transportError => false
  | .response status stream =>
      match stream with
      | .complete _ => status == 200
      | .interrupted _ => false

/-- An attempt opens the destination file (`open(file_path, 'wb')`)
exactly when the response status is 200 — opening truncates/creates the
file even if the stream later fails. -/
def attemptOpensFile (o : AttemptOutcome) : Bool :=
  match o with
  | .transportError => false
  | .response status _ => status == 200

/-- One iteration of the retry loop: given the current file at the
destination and the attempt's outcome, return the file afterwards and
whether the iteration returned `True`. -/
def runAttempt (fs : Option (List Nat)) (o : AttemptOutcome) :
    Option (List Nat) × Bool :=
  match o with
  | .transportError => (fs, false)
  | .response status stream =>
      if status = 200 then
        match stream with
        | .complete chunks => (some (concatAll chunks), true)
        | .interrupted written => (some (concatAll written), false)
      else (fs, false)

/-- `download_image` (src/main.py lines 49-66) over a list of per-attempt
outcomes (one entry per iteration of `range(maxAttempts)`), starting from
the given file state.  Returns the boolean result, the final file state,
and the number of attempts performed (the loop exits early on the first
success). -/
def download_image : List AttemptOutcome → Option (List Nat) →
    Bool × Option (List Nat) × Nat
  | [], fs => (false, fs, 0)
  | o :: rest, fs =>
      let r := runAttempt fs o
      if r.2 then (true, r.1, 1)
      else
        let d := download_image rest r.1
        (d.1, d.2.1, d.2.2 + 1)

/-- Concrete attempt list: every attempt fails (a transport error, then
a 404 response). -/
def attsAllFail : List AttemptOutcome :=
  [.transportError, .response 404 (.complete [])]

/-- Concrete attempt prefix: two 500 responses (spec scenario
`500, 500, 200`). -/
def atts500 : List AttemptOutcome :=
  [.response 500 (.complete []), .response 500 (.complete [])]

/-- Concrete body of the third (successful) response, as chunks. -/
def bodyChunks3 : List (List Nat) := [[1, 2], [3]]

/-- Concrete attempt list: one 200 response whose stream is interrupted
after the chunk `[7]` was written. -/
def attsInterrupted : List AttemptOutcome :=
  [.response 200 (.interrupted [[7]])]

/-- Concrete attempt list: a plain 404 failure (never opens the file). -/
def attsNoOpen : List AttemptOutcome :=
  [.response 404 (.complete [])]

/-- Concrete attempt lists with the same success/failure pattern but
different failure classes (transport error vs. 404-with-interrupt). -/
def attsKindA : List AttemptOutcome :=
  [.transportError, .response 200 (.complete [[5]])]

/-- See `attsKindA`: same pattern, different failure class on attempt 1. -/
def attsKindB : List AttemptOutcome :=
  [.response 404 (.interrupted [[9]]), .response 200 (.complete [[6, 7]])]

/-! ### The stabilization scroller (src/main.py lines 102-110)

`last_height` is read once before the loop; each cycle scrolls, pauses,
reads `new_height`, breaks when it equals `last_height`, and otherwise
continues with `last_height := new_height`.  The page's height reads are
a sequence `h : Nat → Nat` (`h 0` is the pre-loop read; cycle `i` reads
`h i`).  The loop has no bound in the source, so the model carries fuel:
`some c` means the loop terminated after exactly `c` cycles within the
fuel bound, `none` means the fuel ran out first. -/

/-- The scroll loop body, continuing from last-seen height `last`, about
to perform the cycle that reads `h i`. -/
def scrollCycles (h : Nat → Nat) : Nat → Nat → Nat → Option Nat
  | _, _, 0 => none
  | last, i, fuel + 1 =>
      if h i = last then some 1
      else (scrollCycles h (h i) (i + 1) fuel).map (fun c => c + 1)

/-- The scroller of src/main.py lines 102-110: initial read `h 0`, then
cycles reading `h 1, h 2, ...` until a read repeats the previous one. -/
def scroller (h : Nat → Nat) (fuel : Nat) : Option Nat :=
  scrollCycles h (h 0) 1 fuel

/-- The height sequence is constant from read index `k` on. -/
def constantFrom (h : Nat → Nat) (k : Nat) : Prop :=
  ∀ i, k ≤ i → h i = h k

/-- The height sequence becomes constant after `n` reads (reads are
numbered from 1, so read `n` is `h (n-1)`): the tail from `h (n-1)` is
constant and no earlier tail is. -/
def becomesConstantAfter (h : Nat → Nat) (n : Nat) : Prop :=
  1 ≤ n ∧ constantFrom h (n - 1) ∧ ∀ m, m + 1 < n → ¬ constantFrom h m

/-- Height sequence 5, 5, 7, 7, 7, ...: a plateau at the start, then a
jump, then constant. -/
def plateauHeights (i : Nat) : Nat :=
  if i < 2 then 5 else 7

/-- Height sequence 0, 1, 2, 2, 2, ...: strictly changing until it
stabilizes at the third read. -/
def stepHeights (i : Nat) : Nat :=
  if i < 2 then i else 2

/-! ### The main download loop (src/main.py lines 115-133)

For each parsed `img` tag: stop once `downloaded >= max_images`; skip
the tag when `src` is missing/empty or does not contain `http`;
otherwise fetch `full_src` (the `data-fullsrc` attribute when truthy,
else `src`) under the sanitized filename, incrementing `downloaded`
only when `download_image` returned `True`.  The network's verdict for
a fetch is an oracle `dl : url → filename → Bool`; the loop also
returns the log of fetches performed, as `(url, succeeded)` pairs. -/

/-- An `img` tag as consulted by the loop: its `src`, `data-fullsrc` and
`alt` attributes (each possibly absent). -/
structure ImgTag where
  src : Option (List Nat)
  dataFullsrc : Option (List Nat)
  alt : Option (List Nat)
deriving DecidableEq

/-- Codepoints of `http`. -/
def httpCodes : List Nat := [104, 116, 116, 112]

/-- Codepoints of `image_` (the default-title stem at line 127). -/
def imageCodes : List Nat := [105, 109, 97, 103, 101, 95]

/-- `listStartsWith pat s` holds when `pat` is an initial segment of `s`. -/
def listStartsWith : List Nat → List Nat → Bool
  | [], _ => true
  | _ :: _, [] => false
  | p :: ps, c :: cs => p == c && listStartsWith ps cs

/-- Python's `pat in s` on strings: `pat` occurs as a contiguous
substring of `s` at some position. -/
def containsSub (pat : List Nat) : List Nat → Bool
  | [] => listStartsWith pat []
  | c :: cs => listStartsWith pat (c :: cs) || containsSub pat cs

/-- The filter at src/main.py line 122: the tag is fetched only when
`src` is present, truthy (non-empty) and contains `http`. -/
def validTag (t : ImgTag) : Bool :=
  match t.src with
  | none => false
  | some s => !s.isEmpty && containsSub httpCodes s

/-- `img.get('data-fullsrc') or src` (line 126): the fetched URL is
`data-fullsrc` when present and truthy, else `src`. -/
def fullSrc (t : ImgTag) : List Nat :=
  match t.dataFullsrc with
  | none => t.src.getD []
  | some d => if d.isEmpty then t.src.getD [] else d

/-- Decimal digits of `n` as codepoints (for `f"image_{downloaded}"`). -/
def natDecCodes (n : Nat) : List Nat :=
  (Nat.toDigits 10 n).map Char.toNat

/-- `img.get('alt') or f"image_{downloaded}"` (line 127). -/
def imgTitle (t : ImgTag) (downloaded : Nat) : List Nat :=
  match t.alt with
  | none => imageCodes ++ natDecCodes downloaded
  | some a => if a.isEmpty then imageCodes ++ natDecCodes downloaded else a

/-- The download loop of src/main.py lines 118-131, from a current
`downloaded` count.  Returns the final count and the log of fetches
performed, each as `(url, succeeded)`. -/
def scrapeLoop (dl : List Nat → List Nat → Bool) (maxImages : Nat) :
    List ImgTag → Nat → Nat × List (List Nat × Bool)
  | [], downloaded => (downloaded, [])
  | t :: rest, downloaded =>
      if maxImages ≤ downloaded then (downloaded, [])
      else if validTag t then
        let url := fullSrc t
        let fn := filenameFor (imgTitle t downloaded)
        if dl url fn then
          let r := scrapeLoop dl maxImages rest (downloaded + 1)
          (r.1, (url, true) :: r.2)
        else
          let r := scrapeLoop dl maxImages rest downloaded
          (r.1, (url, false) :: r.2)
      else scrapeLoop dl maxImages rest downloaded

/-- Oracle under which every fetch succeeds. -/
def dlTrue : List Nat → List Nat → Bool := fun _ _ => true

/-- Valid tag: `src` = `http://a`, `alt` = `a`. -/
def tagValid1 : ImgTag :=
  ⟨some [104, 116, 116, 112, 58, 47, 47, 97], none, some [97]⟩

/-- Invalid tag: no `src` attribute at all. -/
def tagNoSrc : ImgTag := ⟨none, some [104], none⟩

/-- Valid tag whose `src` = `xhttpy` contains `http` only in the middle;
`data-fullsrc` = `http://b`. -/
def tagValid2 : ImgTag :=
  ⟨some [120, 104, 116, 116, 112, 121],
   some [104, 116, 116, 112, 58, 47, 47, 98], none⟩

/-- Invalid tag: `src` = `htp` does not contain `http`. -/
def tagNoHttp : ImgTag := ⟨some [104, 116, 112], none, none⟩

/-- Valid tag: `src` = `chttpd`, empty `alt` (falls back to the default
title). -/
def tagValid3 : ImgTag := ⟨some [99, 104, 116, 116, 112, 100], none, some []⟩

/-- Page with exactly 3 valid tags among 5 (spec scenario
`maxImages = 5`, 3 valid URLs). -/
def exTags : List ImgTag :=
  [tagValid1, tagNoSrc, tagValid2, tagNoHttp, tagValid3]

/-! ## Theorems -/

/-- C8: For the title `Red Car!! 2024`, sanitizing `Red Car!! 2024.jpg`
yields exactly `red_car_2024.jpg`: symbols stripped, spaces replaced by
underscores, lowercased, within the 50-character bound. -/
theorem clean_filename_red_car :
    filenameFor redCarTitle = redCarExpected := by
  decide

/-- Replacing spaces never yields a space: the result is 95 or a
codepoint that already differed from 32. -/
lemma replSpaceN_ne_32 (c : Nat) : replSpaceN c ≠ 32 := by
  unfold replSpaceN
  split <;> omega

/-- Lowercasing cannot introduce a space. -/
lemma toLowerN_ne_32 (c : Nat) (h : c ≠ 32) : toLowerN c ≠ 32 := by
  unfold toLowerN
  split <;> omega

/-- Lowercasing never yields an uppercase ASCII letter. -/
lemma toLowerN_not_upper (c : Nat) : ¬(65 ≤ toLowerN c ∧ toLowerN c ≤ 90) := by
  unfold toLowerN
  split <;> omega

/-- Lowercasing fixes any codepoint outside `A`-`Z`. -/
lemma toLowerN_fix (c : Nat) (h : ¬(65 ≤ c ∧ c ≤ 90)) : toLowerN c = c := by
  unfold toLowerN
  split <;> omega

/-- Space replacement fixes any codepoint other than 32. -/
lemma replSpaceN_fix (c : Nat) (h : c ≠ 32) : replSpaceN c = c := by
  unfold replSpaceN
  split <;> omega

/-- Every codepoint of a sanitized filename survived the regex filter,
is not a space, and is not an uppercase ASCII letter. -/
lemma mem_clean_filename (c : Nat) (name : List Nat)
    (h : c ∈ clean_filename name) :
    keepCharN c = true ∧ c ≠ 32 ∧ ¬(65 ≤ c ∧ c ≤ 90) := by
  have h1 : c ∈ ((name.map replSpaceN).map toLowerN).filter keepCharN :=
    List.take_subset _ _ h
  have h2 := List.mem_filter.1 h1
  obtain ⟨b, hb, hbc⟩ := List.mem_map.1 h2.1
  obtain ⟨d, _, hdb⟩ := List.mem_map.1 hb
  refine ⟨h2.2, ?_, ?_⟩
  · rw [← hbc, ← hdb]
    exact toLowerN_ne_32 _ (replSpaceN_ne_32 d)
  · rw [← hbc]
    exact toLowerN_not_upper b

/-- A sanitized filename has at most 50 codepoints. -/
lemma clean_filename_length_le (name : List Nat) :
    (clean_filename name).length ≤ 50 := by
  unfold clean_filename
  rw [List.length_take]
  exact Nat.min_le_left _ _

/-- C4 (counterexample): the input `a<TAB>b` sanitizes to itself, so the
output contains a tab (codepoint 9), which is outside the character set
the claim allows (word characters, underscores, dots, hyphens). -/
theorem clean_filename_keeps_tab :
    clean_filename tabName = tabName ∧ (9 : Nat) ∈ clean_filename tabName ∧
      specAllowedChar 9 = false := by
  decide

/-- C4 (amended): every codepoint of a sanitized filename is a word
character, a whitespace character, a dot or a hyphen — and never a
space, since spaces were replaced by underscores before the filter —
and the filename has at most 50 codepoints. -/
theorem clean_filename_charset_length (name : List Nat) :
    (∀ c ∈ clean_filename name,
        (isWordCharN c = true ∨ isSpaceCharN c = true ∨ c = 46 ∨ c = 45) ∧
          c ≠ 32) ∧
    (clean_filename name).length ≤ 50 := by
  refine ⟨fun c hc => ?_, clean_filename_length_le name⟩
  obtain ⟨hk, h32, _⟩ := mem_clean_filename c name hc
  simp only [keepCharN, Bool.or_eq_true, beq_iff_eq] at hk
  exact ⟨by tauto, h32⟩

/-- C4 (witness): the amended theorem applied to the input `a<TAB>b`
and its output codepoint 9. -/
theorem clean_filename_charset_length_witness :
    ((isWordCharN 9 = true ∨ isSpaceCharN 9 = true ∨ (9 : Nat) = 46 ∨
        (9 : Nat) = 45) ∧ (9 : Nat) ≠ 32) ∧
    (clean_filename tabName).length ≤ 50 :=
  ⟨(clean_filename_charset_length tabName).1 9 (by decide),
   (clean_filename_charset_length tabName).2⟩

/-- C9: sanitization is idempotent — sanitizing a sanitized name changes
nothing — and a sanitized name never contains an uppercase ASCII
letter. -/
theorem clean_filename_idem_lower (s : List Nat) :
    clean_filename (clean_filename s) = clean_filename s ∧
    ∀ c ∈ clean_filename s, ¬(65 ≤ c ∧ c ≤ 90) := by
  have hmem := fun c hc => mem_clean_filename c s hc
  have h1 : (clean_filename s).map replSpaceN = clean_filename s := by
    rw [List.map_congr_left fun a ha => replSpaceN_fix a (hmem a ha).2.1]
    exact (clean_filename s).map_id
  have h2 : (clean_filename s).map toLowerN = clean_filename s := by
    rw [List.map_congr_left fun a ha => toLowerN_fix a (hmem a ha).2.2]
    exact (clean_filename s).map_id
  have h3 : (clean_filename s).filter keepCharN = clean_filename s :=
    List.filter_eq_self.2 fun a ha => (hmem a ha).1
  have h4 : (clean_filename s).take 50 = clean_filename s :=
    List.take_of_length_le (clean_filename_length_le s)
  refine ⟨?_, fun c hc => (hmem c hc).2.2⟩
  show ((((clean_filename s).map replSpaceN).map toLowerN).filter
      keepCharN).take 50 = clean_filename s
  rw [h1, h2, h3, h4]

/-- C9 (witness): idempotence and absence of uppercase on the concrete
input `A b`, whose sanitization is `a_b` (codepoints 97, 95, 98). -/
theorem clean_filename_idem_lower_witness :
    clean_filename (clean_filename upperName) = clean_filename upperName ∧
    ¬(65 ≤ (97 : Nat) ∧ (97 : Nat) ≤ 90) :=
  ⟨(clean_filename_idem_lower upperName).1,
   (clean_filename_idem_lower upperName).2 97 (by decide)⟩

/-- Whether an iteration of the retry loop returns `True` depends only
on the attempt's outcome, never on the file state. -/
lemma runAttempt_snd (fs : Option (List Nat)) (o : AttemptOutcome) :
    (runAttempt fs o).2 = attemptSucceeds o := by
  unfold runAttempt attemptSucceeds
  cases o with
  | transportError => rfl
  | response s st => cases st <;> by_cases hs : s = 200 <;> simp [hs]

/-- A successful iteration leaves a file at the destination. -/
lemma runAttempt_isSome (fs : Option (List Nat)) (o : AttemptOutcome)
    (h : (runAttempt fs o).2 = true) : (runAttempt fs o).1.isSome = true := by
  cases o with
  | transportError => simp [runAttempt] at h
  | response s st =>
      by_cases hs : s = 200
      · subst hs; cases st <;> simp [runAttempt]
      · simp [runAttempt, hs] at h

/-- An iteration that never reaches a 200 response leaves the file state
untouched and fails. -/
lemma runAttempt_noOpen (fs : Option (List Nat)) (o : AttemptOutcome)
    (h : attemptOpensFile o = false) : runAttempt fs o = (fs, false) := by
  cases o with
  | transportError => rfl
  | response s st =>
      have hs : s ≠ 200 := by simpa [attemptOpensFile] using h
      simp [runAttempt, hs]

/-- When every attempt fails, the retry loop runs through the whole list
and returns failure. -/
lemma download_image_all_fail_aux (atts : List AttemptOutcome) :
    ∀ fs, (∀ o ∈ atts, attemptSucceeds o = false) →
      (download_image atts fs).1 = false ∧
        (download_image atts fs).2.2 = atts.length := by
  induction atts with
  | nil => intro fs _; simp [download_image]
  | cons o rest ih =>
      intro fs h
      have hr : (runAttempt fs o).2 = false := by
        rw [runAttempt_snd]; exact h o (List.mem_cons_self o rest)
      have ihr := ih (runAttempt fs o).1
        fun x hx => h x (List.mem_cons_of_mem o hx)
      simp only [download_image, hr, Bool.false_eq_true, if_false,
        List.length_cons]
      exact ⟨ihr.1, by omega⟩

/-- C1: with at least one attempt allowed, a fetch whose every attempt
fails (non-200 status or transport failure each time) performs exactly
`maxAttempts` attempts and returns failure. -/
theorem download_image_all_fail (atts : List AttemptOutcome)
    (fs : Option (List Nat)) (_hlen : 1 ≤ atts.length)
    (h : ∀ o ∈ atts, attemptSucceeds o = false) :
    (download_image atts fs).1 = false ∧
      (download_image atts fs).2.2 = atts.length :=
  download_image_all_fail_aux atts fs h

/-- C1 (witness): two failing attempts (transport error, then 404) give
failure after exactly 2 attempts. -/
theorem download_image_all_fail_witness :
    1 ≤ attsAllFail.length ∧
    ((download_image attsAllFail none).1 = false ∧
      (download_image attsAllFail none).2.2 = attsAllFail.length) :=
  ⟨by decide, download_image_all_fail attsAllFail none (by decide) (by decide)⟩

/-- C2: when the first `k - 1` attempts fail and attempt `k` gets a 200
response whose stream completes, the fetch stops after exactly `k`
attempts, returns success, and the file at the destination is the body
of the `k`-th response. -/
theorem download_image_succeeds_at_k (pre post : List AttemptOutcome)
    (chunks : List (List Nat)) (fs : Option (List Nat))
    (h : ∀ o ∈ pre, attemptSucceeds o = false) :
    download_image
        (pre ++ AttemptOutcome.response 200 (StreamResult.complete chunks)
          :: post) fs =
      (true, some (concatAll chunks), pre.length + 1) := by
  induction pre generalizing fs with
  | nil => simp [download_image, runAttempt]
  | cons o rest ih =>
      have hr : (runAttempt fs o).2 = false := by
        rw [runAttempt_snd]; exact h o (List.mem_cons_self o rest)
      have step := ih (runAttempt fs o).1
        fun x hx => h x (List.mem_cons_of_mem o hx)
      simp [download_image, hr, step]

/-- C2 (witness): the spec scenario — responses 500, 500, then 200 with
body chunks `[1,2]`, `[3]` — returns success after exactly 3 attempts
with the file equal to the third response's body `[1,2,3]`. -/
theorem download_image_succeeds_at_k_witness :
    download_image
        (atts500 ++ AttemptOutcome.response 200
          (StreamResult.complete bodyChunks3) :: []) none =
      (true, some (concatAll bodyChunks3), atts500.length + 1) ∧
    concatAll bodyChunks3 = [1, 2, 3] ∧ atts500.length + 1 = 3 :=
  ⟨download_image_succeeds_at_k atts500 [] bodyChunks3 none (by decide),
   by decide, by decide⟩

/-- C3 (counterexample): a single attempt with a 200 response whose
stream is interrupted after writing the chunk `[7]` returns failure, yet
a (partial) file `[7]` exists at the destination afterwards — so "a file
exists iff the result was success" fails on the code. -/
theorem download_image_leftover_file_on_failure :
    (download_image attsInterrupted none).1 = false ∧
      (download_image attsInterrupted none).2.1 = some [7] := by
  decide

/-- C3 (amended): on success a file exists at the destination; and when
the fetch fails, the destination is untouched provided no attempt
received a success-status (200) response — but a partial file may remain
when a 200 attempt failed mid-stream, since opening already creates the
file. -/
theorem download_image_file_state (atts : List AttemptOutcome)
    (fs : Option (List Nat)) :
    ((download_image atts fs).1 = true →
      (download_image atts fs).2.1.isSome = true) ∧
    ((∀ o ∈ atts, attemptOpensFile o = false) →
      (download_image atts fs).2.1 = fs) := by
  induction atts generalizing fs with
  | nil => simp [download_image]
  | cons o rest ih =>
      constructor
      · intro hres
        by_cases hr : (runAttempt fs o).2 = true
        · have hsome := runAttempt_isSome fs o hr
          simp [download_image, hr, hsome]
        · have hrf : (runAttempt fs o).2 = false := by
            revert hr; cases (runAttempt fs o).2 <;> simp
          have hres2 : (download_image rest (runAttempt fs o).1).1 = true := by
            revert hres; simp [download_image, hrf]
          have := (ih (runAttempt fs o).1).1 hres2
          simp [download_image, hrf, this]
      · intro h
        have hfix : runAttempt fs o = (fs, false) :=
          runAttempt_noOpen fs o (h o (List.mem_cons_self o rest))
        have tail := (ih fs).2 fun x hx => h x (List.mem_cons_of_mem o hx)
        simp [download_image, hfix, tail]

/-- C3 (amended, witness): a failing fetch that never got a 200 response
(a single 404) leaves no file behind. -/
theorem download_image_file_state_witness :
    (download_image attsNoOpen none).2.1 = none :=
  (download_image_file_state attsNoOpen none).2 (by decide)

/-- C6: the retry loop does not distinguish failure classes — replacing
each attempt's outcome by any outcome with the same success bit (a 404
for a timeout, an interrupted stream for a transport error, ...) leaves
the returned boolean and the number of attempts performed unchanged,
whatever the file states. -/
theorem download_image_retry_uniform (a1 a2 : List AttemptOutcome)
    (fs1 fs2 : Option (List Nat))
    (h : a1.map attemptSucceeds = a2.map attemptSucceeds) :
    (download_image a1 fs1).1 = (download_image a2 fs2).1 ∧
      (download_image a1 fs1).2.2 = (download_image a2 fs2).2.2 := by
  induction a1 generalizing a2 fs1 fs2 with
  | nil =>
      have ha2 : a2 = [] := by
        cases a2 with
        | nil => rfl
        | cons b bs => simp at h
      subst ha2; simp [download_image]
  | cons o rest ih =>
      cases a2 with
      | nil => simp at h
      | cons b bs =>
          simp only [List.map_cons, List.cons.injEq] at h
          obtain ⟨hob, hrest⟩ := h
          have h1 := runAttempt_snd fs1 o
          have h2 := runAttempt_snd fs2 b
          by_cases hs : attemptSucceeds o = true
          · have hb : attemptSucceeds b = true := by rw [← hob]; exact hs
            simp [download_image, h1, h2, hs, hb]
          · have hsf : attemptSucceeds o = false := by
              revert hs; cases attemptSucceeds o <;> simp
            have hbf : attemptSucceeds b = false := by rw [← hob]; exact hsf
            have tail := ih bs (runAttempt fs1 o).1 (runAttempt fs2 b).1 hrest
            simp only [download_image, h1, h2, hsf, hbf, Bool.false_eq_true,
              if_false]
            exact ⟨tail.1, by rw [tail.2]⟩

/-- C6 (witness): a transport error then a success behaves, in result
and attempt count, exactly like a 404-with-interrupted-stream then a
success, even from different file states. -/
theorem download_image_retry_uniform_witness :
    (download_image attsKindA none).1 =
        (download_image attsKindB (some [])).1 ∧
      (download_image attsKindA none).2.2 =
        (download_image attsKindB (some [])).2.2 :=
  download_image_retry_uniform attsKindA attsKindB none (some []) (by decide)

/-- Main induction for the scroller: continuing from last-seen height
`h (j - 1)` at cycle `j` (with `1 ≤ j ≤ n`), a sequence that is constant
from read index `n - 1` and changes at every earlier step performs
exactly `n - j + 1` further cycles, given enough fuel. -/
lemma scrollCycles_exact (h : Nat → Nat) (n : Nat)
    (hconst : ∀ i, n - 1 ≤ i → h i = h (n - 1))
    (hchg : ∀ i, i + 1 < n → h i ≠ h (i + 1)) :
    ∀ fuel j, 1 ≤ j → j ≤ n → n - j < fuel →
      scrollCycles h (h (j - 1)) j fuel = some (n - j + 1) := by
  intro fuel
  induction fuel with
  | zero => intro j _ _ hf; omega
  | succ fuel ih =>
      intro j hj1 hjn hf
      by_cases heq : j = n
      · subst heq
        have hji : h j = h (j - 1) := by
          have e1 := hconst j (by omega)
          have e2 := hconst (j - 1) (by omega)
          rw [e1, e2]
        simp only [scrollCycles]
        rw [if_pos hji]
        congr 1
        omega
      · have hlt : j < n := by omega
        have hne : ¬ h j = h (j - 1) := by
          have := hchg (j - 1) (by omega)
          rw [show j - 1 + 1 = j by omega] at this
          exact fun e => this e.symm
        have step := ih (j + 1) (by omega) (by omega) (by omega)
        rw [show j + 1 - 1 = j by omega] at step
        simp only [scrollCycles]
        rw [if_neg hne, step, Option.map_some']
        congr 1
        omega

/-- C5 (counterexample): the height reads 5, 5, 7, 7, 7, ... become
constant after 3 reads (the tail from the third read is constant, and no
earlier tail is), yet the scroller stops after exactly 1 cycle — the
initial plateau triggers the equality test early — not after 3. -/
theorem scroller_early_stop_on_plateau :
    becomesConstantAfter plateauHeights 3 ∧
      scroller plateauHeights 10 = some 1 ∧
      scroller plateauHeights 10 ≠ some 3 := by
  refine ⟨⟨by omega, ?_, ?_⟩, by decide, by decide⟩
  · intro i hi
    simp only [plateauHeights]
    rw [if_neg (by omega), if_neg (by omega)]
  · intro m hm hc
    have h2 := hc 2 (by omega)
    revert h2
    simp only [plateauHeights]
    rw [if_neg (by omega), if_pos (by omega)]
    omega

/-- C5 (amended): for a height sequence whose consecutive reads all
differ until it becomes constant at the `n`-th read (`n ≥ 1`), the
scroller terminates and performs exactly `n` scroll/measure cycles, for
any fuel bound of at least `n`. -/
theorem scroller_exact_cycles (h : Nat → Nat) (n fuel : Nat)
    (hn : 1 ≤ n) (hconst : constantFrom h (n - 1))
    (hchg : ∀ i, i + 1 < n → h i ≠ h (i + 1)) (hfuel : n ≤ fuel) :
    scroller h fuel = some n := by
  have base := scrollCycles_exact h n hconst hchg fuel 1 (by omega)
    (by omega) (by omega)
  unfold scroller
  simpa [show n - 1 + 1 = n by omega] using base

/-- C5 (amended, witness): the reads 0, 1, 2, 2, 2, ... change at every
step until they stabilize at the third read, and the scroller performs
exactly 3 cycles on them. -/
theorem scroller_exact_cycles_witness :
    scroller stepHeights 10 = some 3 := by
  refine scroller_exact_cycles stepHeights 3 10 (by omega) ?_ ?_ (by omega)
  · intro i hi
    simp only [stepHeights]
    rw [if_neg (by omega), if_neg (by omega)]
  · intro i hi
    have hcase : i = 0 ∨ i = 1 := by omega
    rcases hcase with rfl | rfl <;> decide

/-- Unfolding: the loop on an empty tag list returns the count as is. -/
lemma scrapeLoop_nil (dl : List Nat → List Nat → Bool) (m d : Nat) :
    scrapeLoop dl m [] d = (d, []) := rfl

/-- Unfolding: once the count has reached the maximum, the loop breaks. -/
lemma scrapeLoop_cons_break (dl : List Nat → List Nat → Bool) (m : Nat)
    (t : ImgTag) (rest : List ImgTag) (d : Nat) (h : m ≤ d) :
    scrapeLoop dl m (t :: rest) d = (d, []) := by
  simp [scrapeLoop, h]

/-- Unfolding: a tag failing the `src`/`http` filter is skipped. -/
lemma scrapeLoop_cons_invalid (dl : List Nat → List Nat → Bool) (m : Nat)
    (t : ImgTag) (rest : List ImgTag) (d : Nat) (h1 : ¬ m ≤ d)
    (h2 : validTag t = false) :
    scrapeLoop dl m (t :: rest) d = scrapeLoop dl m rest d := by
  simp [scrapeLoop, h1, h2]

/-- Unfolding: a valid tag whose fetch succeeds is logged and counted. -/
lemma scrapeLoop_cons_hit (dl : List Nat → List Nat → Bool) (m : Nat)
    (t : ImgTag) (rest : List ImgTag) (d : Nat) (h1 : ¬ m ≤ d)
    (h2 : validTag t = true)
    (h3 : dl (fullSrc t) (filenameFor (imgTitle t d)) = true) :
    scrapeLoop dl m (t :: rest) d =
      ((scrapeLoop dl m rest (d + 1)).1,
        (fullSrc t, true) :: (scrapeLoop dl m rest (d + 1)).2) := by
  simp [scrapeLoop, h1, h2, h3]

/-- Unfolding: a valid tag whose fetch fails is logged but not counted. -/
lemma scrapeLoop_cons_miss (dl : List Nat → List Nat → Bool) (m : Nat)
    (t : ImgTag) (rest : List ImgTag) (d : Nat) (h1 : ¬ m ≤ d)
    (h2 : validTag t = true)
    (h3 : dl (fullSrc t) (filenameFor (imgTitle t d)) = false) :
    scrapeLoop dl m (t :: rest) d =
      ((scrapeLoop dl m rest d).1,
        (fullSrc t, false) :: (scrapeLoop dl m rest d).2) := by
  simp [scrapeLoop, h1, h2, h3]

/-- The final count is the starting count plus the number of successful
fetches in the log: `downloaded` is incremented exactly on success. -/
lemma scrape_count_eq (dl : List Nat → List Nat → Bool) (m : Nat) :
    ∀ tags d, (scrapeLoop dl m tags d).1 =
      d + ((scrapeLoop dl m tags d).2.filter (fun e => e.2)).length := by
  intro tags
  induction tags with
  | nil => intro d; simp [scrapeLoop_nil]
  | cons t rest ih =>
      intro d
      by_cases h1 : m ≤ d
      · simp [scrapeLoop_cons_break dl m t rest d h1]
      · by_cases h2 : validTag t = true
        · by_cases h3 : dl (fullSrc t) (filenameFor (imgTitle t d)) = true
          · have hc := ih (d + 1)
            rw [scrapeLoop_cons_hit dl m t rest d h1 h2 h3]
            simp only [List.filter_cons]
            simp only [show ((fun (e : List Nat × Bool) => e.2)
              (fullSrc t, true)) = true from rfl, if_true, List.length_cons]
            omega
          · have h3f : dl (fullSrc t) (filenameFor (imgTitle t d)) = false := by
              revert h3; cases dl (fullSrc t) (filenameFor (imgTitle t d)) <;> simp
            have hc := ih d
            rw [scrapeLoop_cons_miss dl m t rest d h1 h2 h3f]
            simp only [List.filter_cons]
            simp only [show ((fun (e : List Nat × Bool) => e.2)
              (fullSrc t, false)) = false from rfl, Bool.false_eq_true,
              if_false]
            omega
        · have h2f : validTag t = false := by
            revert h2; cases validTag t <;> simp
          rw [scrapeLoop_cons_invalid dl m t rest d h1 h2f]
          exact ih d

/-- As long as the valid tags cannot exhaust the budget, every valid tag
is fetched exactly once, in order: the log's URLs are exactly the
`full_src` of the valid tags. -/
lemma scrape_log_all (dl : List Nat → List Nat → Bool) (m : Nat) :
    ∀ tags d, d + (tags.filter validTag).length < m →
      (scrapeLoop dl m tags d).2.map Prod.fst =
        (tags.filter validTag).map fullSrc := by
  intro tags
  induction tags with
  | nil => intro d _; simp [scrapeLoop_nil]
  | cons t rest ih =>
      intro d hlt
      have h1 : ¬ m ≤ d := by omega
      by_cases h2 : validTag t = true
      · have hfil : (t :: rest).filter validTag = t :: rest.filter validTag := by
          simp [List.filter_cons, h2]
        have hlen : ((t :: rest).filter validTag).length =
            (rest.filter validTag).length + 1 := by
          rw [hfil]; simp
        by_cases h3 : dl (fullSrc t) (filenameFor (imgTitle t d)) = true
        · rw [scrapeLoop_cons_hit dl m t rest d h1 h2 h3, hfil]
          simp only [List.map_cons]
          rw [ih (d + 1) (by omega)]
        · have h3f : dl (fullSrc t) (filenameFor (imgTitle t d)) = false := by
            revert h3; cases dl (fullSrc t) (filenameFor (imgTitle t d)) <;> simp
          rw [scrapeLoop_cons_miss dl m t rest d h1 h2 h3f, hfil]
          simp only [List.map_cons]
          rw [ih d (by omega)]
      · have h2f : validTag t = false := by
          revert h2; cases validTag t <;> simp
        have hfil : (t :: rest).filter validTag = rest.filter validTag := by
          simp [List.filter_cons, h2f]
        rw [scrapeLoop_cons_invalid dl m t rest d h1 h2f, hfil]
        rw [hfil] at hlt
        exact ih d hlt

/-- Under an oracle that always succeeds, every log entry is a success. -/
lemma scrape_all_success (dl : List Nat → List Nat → Bool) (m : Nat)
    (hdl : ∀ u fn, dl u fn = true) :
    ∀ tags d e, e ∈ (scrapeLoop dl m tags d).2 → e.2 = true := by
  intro tags
  induction tags with
  | nil => intro d e he; simp [scrapeLoop_nil] at he
  | cons t rest ih =>
      intro d e he
      by_cases h1 : m ≤ d
      · rw [scrapeLoop_cons_break dl m t rest d h1] at he
        simp at he
      · by_cases h2 : validTag t = true
        · rw [scrapeLoop_cons_hit dl m t rest d h1 h2
            (hdl (fullSrc t) (filenameFor (imgTitle t d)))] at he
          rcases List.mem_cons.1 he with hh | hh
          · rw [hh]
          · exact ih (d + 1) e hh
        · have h2f : validTag t = false := by
            revert h2; cases validTag t <;> simp
          rw [scrapeLoop_cons_invalid dl m t rest d h1 h2f] at he
          exact ih d e he

/-- Every fetch in the log comes from a tag that passed the filter, and
fetches that tag's `full_src`. -/
lemma scrape_log_valid (dl : List Nat → List Nat → Bool) (m : Nat) :
    ∀ tags d e, e ∈ (scrapeLoop dl m tags d).2 →
      ∃ t, t ∈ tags ∧ validTag t = true ∧ e.1 = fullSrc t := by
  intro tags
  induction tags with
  | nil => intro d e he; simp [scrapeLoop_nil] at he
  | cons t rest ih =>
      intro d e he
      by_cases h1 : m ≤ d
      · rw [scrapeLoop_cons_break dl m t rest d h1] at he
        simp at he
      · by_cases h2 : validTag t = true
        · by_cases h3 : dl (fullSrc t) (filenameFor (imgTitle t d)) = true
          · rw [scrapeLoop_cons_hit dl m t rest d h1 h2 h3] at he
            rcases List.mem_cons.1 he with hh | hh
            · exact ⟨t, List.mem_cons_self t rest, h2, by rw [hh]⟩
            · obtain ⟨u, hu, hv, he1⟩ := ih (d + 1) e hh
              exact ⟨u, List.mem_cons_of_mem t hu, hv, he1⟩
          · have h3f : dl (fullSrc t) (filenameFor (imgTitle t d)) = false := by
              revert h3
              cases dl (fullSrc t) (filenameFor (imgTitle t d)) <;> simp
            rw [scrapeLoop_cons_miss dl m t rest d h1 h2 h3f] at he
            rcases List.mem_cons.1 he with hh | hh
            · exact ⟨t, List.mem_cons_self t rest, h2, by rw [hh]⟩
            · obtain ⟨u, hu, hv, he1⟩ := ih d e hh
              exact ⟨u, List.mem_cons_of_mem t hu, hv, he1⟩
        · have h2f : validTag t = false := by
            revert h2; cases validTag t <;> simp
          rw [scrapeLoop_cons_invalid dl m t rest d h1 h2f] at he
          obtain ⟨u, hu, hv, he1⟩ := ih d e he
          exact ⟨u, List.mem_cons_of_mem t hu, hv, he1⟩

/-- Starting at or below the maximum, the count never exceeds it. -/
lemma scrape_le (dl : List Nat → List Nat → Bool) (m : Nat) :
    ∀ tags d, d ≤ m → (scrapeLoop dl m tags d).1 ≤ m := by
  intro tags
  induction tags with
  | nil => intro d hd; simpa [scrapeLoop_nil] using hd
  | cons t rest ih =>
      intro d hd
      by_cases h1 : m ≤ d
      · rw [scrapeLoop_cons_break dl m t rest d h1]; exact hd
      · by_cases h2 : validTag t = true
        · by_cases h3 : dl (fullSrc t) (filenameFor (imgTitle t d)) = true
          · rw [scrapeLoop_cons_hit dl m t rest d h1 h2 h3]
            exact ih (d + 1) (by omega)
          · have h3f : dl (fullSrc t) (filenameFor (imgTitle t d)) = false := by
              revert h3
              cases dl (fullSrc t) (filenameFor (imgTitle t d)) <;> simp
            rw [scrapeLoop_cons_miss dl m t rest d h1 h2 h3f]
            exact ih d hd
        · have h2f : validTag t = false := by
            revert h2; cases validTag t <;> simp
          rw [scrapeLoop_cons_invalid dl m t rest d h1 h2f]
          exact ih d hd

/-- Skipping is invisible: prepending an invalid tag to the page leaves
the loop's result — count and log — unchanged. -/
lemma scrape_skip (dl : List Nat → List Nat → Bool) (m : Nat) (t : ImgTag)
    (tags : List ImgTag) (d : Nat) (hv : validTag t = false) :
    scrapeLoop dl m (t :: tags) d = scrapeLoop dl m tags d := by
  by_cases h1 : m ≤ d
  · rw [scrapeLoop_cons_break dl m t tags d h1]
    cases tags with
    | nil => rfl
    | cons t2 r2 => rw [scrapeLoop_cons_break dl m t2 r2 d h1]
  · exact scrapeLoop_cons_invalid dl m t tags d h1 hv

/-- `listStartsWith` decides "is an initial segment of". -/
lemma listStartsWith_iff :
    ∀ pat s : List Nat, listStartsWith pat s = true ↔ ∃ r, s = pat ++ r := by
  intro pat
  induction pat with
  | nil =>
      intro s
      simp only [listStartsWith, List.nil_append]
      exact ⟨fun _ => ⟨s, rfl⟩, fun _ => trivial⟩
  | cons p ps ih =>
      intro s
      cases s with
      | nil =>
          simp only [listStartsWith, List.cons_append]
          constructor
          · intro habs; cases habs
          · rintro ⟨r, hr⟩; cases hr
      | cons c cs =>
          simp only [listStartsWith, Bool.and_eq_true, beq_iff_eq, ih cs,
            List.cons_append, List.cons.injEq]
          constructor
          · rintro ⟨hpc, r, hr⟩
            exact ⟨r, hpc.symm, hr⟩
          · rintro ⟨r, hcp, hr⟩
            exact ⟨hcp.symm, r, hr⟩

/-- `containsSub` decides Python's substring test `pat in s`: `pat`
occurs contiguously somewhere in `s`. -/
lemma containsSub_iff :
    ∀ s pat : List Nat, containsSub pat s = true ↔ ∃ l r, s = l ++ pat ++ r := by
  intro s
  induction s with
  | nil =>
      intro pat
      simp only [containsSub, listStartsWith_iff]
      constructor
      · rintro ⟨r, hr⟩
        exact ⟨[], r, by simpa using hr⟩
      · rintro ⟨l, r, hr⟩
        have hlen := congrArg List.length hr
        simp only [List.length_nil, List.length_append] at hlen
        have h1 : pat = [] := List.length_eq_zero.1 (by omega)
        exact ⟨[], by simp [h1]⟩
  | cons c cs ih =>
      intro pat
      simp only [containsSub, Bool.or_eq_true, listStartsWith_iff, ih pat]
      constructor
      · rintro (⟨r, hr⟩ | ⟨l, r, hr⟩)
        · exact ⟨[], r, by simpa using hr⟩
        · exact ⟨c :: l, r, by simp [hr]⟩
      · rintro ⟨l, r, hr⟩
        cases l with
        | nil => exact Or.inl ⟨r, by simpa using hr⟩
        | cons x xs =>
            simp only [List.cons_append, List.cons.injEq] at hr
            exact Or.inr ⟨xs, r, hr.2⟩

/-- The fetch filter in terms of the claim's words: a tag with a `src`
attribute is fetched exactly when that `src` is non-empty and contains
`http` contiguously at any position (not necessarily as a prefix). -/
lemma validTag_iff (t : ImgTag) (s : List Nat) (h : t.src = some s) :
    validTag t = true ↔ s ≠ [] ∧ ∃ l r, s = l ++ httpCodes ++ r := by
  obtain ⟨src, dfs, alt⟩ := t
  simp only at h
  subst h
  simp only [validTag, Bool.and_eq_true, Bool.not_eq_true',
    containsSub_iff s httpCodes]
  constructor
  · rintro ⟨he, hc⟩
    refine ⟨?_, hc⟩
    intro hnil
    rw [hnil] at he
    cases he
  · rintro ⟨he, hc⟩
    refine ⟨?_, hc⟩
    cases s with
    | nil => exact absurd rfl he
    | cons a as => rfl

/-- C7: when the requested maximum strictly exceeds the number of valid
image tags, the loop fetches each valid tag exactly once (the log's URLs
are exactly the valid tags' URLs, in order), the reported count equals
the number of successful fetches, and when every fetch succeeds the
count equals the number of valid tags. -/
theorem scrape_valid_exhausted (dl : List Nat → List Nat → Bool)
    (maxImages : Nat) (tags : List ImgTag)
    (hlt : (tags.filter validTag).length < maxImages) :
    (scrapeLoop dl maxImages tags 0).2.map Prod.fst =
        (tags.filter validTag).map fullSrc ∧
      (scrapeLoop dl maxImages tags 0).1 =
        ((scrapeLoop dl maxImages tags 0).2.filter (fun e => e.2)).length ∧
      ((∀ u fn, dl u fn = true) →
        (scrapeLoop dl maxImages tags 0).1 = (tags.filter validTag).length) := by
  have hlog := scrape_log_all dl maxImages tags 0 (by omega)
  have hcount := scrape_count_eq dl maxImages tags 0
  refine ⟨hlog, by omega, fun hdl => ?_⟩
  have hall : (scrapeLoop dl maxImages tags 0).2.filter (fun e => e.2) =
      (scrapeLoop dl maxImages tags 0).2 :=
    List.filter_eq_self.2 fun e he => scrape_all_success dl maxImages hdl tags 0 e he
  have h1 := congrArg List.length hall
  have h2 := congrArg List.length hlog
  simp only [List.length_map] at h2
  omega

/-- C7 (witness): the spec scenario — `maxImages = 5`, a page with 3
valid tags among 5, every fetch succeeding — fetches each valid URL once
and reports 3 downloads. -/
theorem scrape_valid_exhausted_witness :
    (scrapeLoop dlTrue 5 exTags 0).2.map Prod.fst =
        (exTags.filter validTag).map fullSrc ∧
      (scrapeLoop dlTrue 5 exTags 0).1 = (exTags.filter validTag).length ∧
      (exTags.filter validTag).length = 3 := by
  have H := scrape_valid_exhausted dlTrue 5 exTags (by decide)
  exact ⟨H.1, H.2.2 fun u fn => rfl, by decide⟩

/-- C10: every fetch in the log comes from a tag whose `src` passed the
filter and targets its `full_src`; the count never exceeds the maximum;
an invalid tag is skipped with no effect on the result; and a tag with a
`src` is valid exactly when that `src` is non-empty and contains `http`
anywhere. -/
theorem scrape_filter_invariants (dl : List Nat → List Nat → Bool)
    (m d : Nat) (tags : List ImgTag) :
    (∀ e ∈ (scrapeLoop dl m tags d).2,
        ∃ t, t ∈ tags ∧ validTag t = true ∧ e.1 = fullSrc t) ∧
      (d ≤ m → (scrapeLoop dl m tags d).1 ≤ m) ∧
      (∀ t, validTag t = false →
        scrapeLoop dl m (t :: tags) d = scrapeLoop dl m tags d) ∧
      (∀ t s, t.src = some s →
        (validTag t = true ↔ s ≠ [] ∧ ∃ l r, s = l ++ httpCodes ++ r)) :=
  ⟨fun e he => scrape_log_valid dl m tags d e he,
   fun hd => scrape_le dl m tags d hd,
   fun t hv => scrape_skip dl m t tags d hv,
   fun t s hs => validTag_iff t s hs⟩

/-- C10 (witness): on the concrete page, the count stays within the
maximum 5, prepending the filtered-out tag `htp` changes nothing, and
the tag whose `src` is `xhttpy` — `http` strictly inside — is valid. -/
theorem scrape_filter_invariants_witness :
    (scrapeLoop dlTrue 5 exTags 0).1 ≤ 5 ∧
      scrapeLoop dlTrue 5 (tagNoHttp :: exTags) 0 = scrapeLoop dlTrue 5 exTags 0 ∧
      validTag tagValid2 = true := by
  have H := scrape_filter_invariants dlTrue 5 0 exTags
  exact ⟨H.2.1 (by omega), H.2.2.1 tagNoHttp (by decide), by decide⟩
